import Mathlib

/-!
Verification of the gKNN imputation core (distance construction, donor search,
weighting, parameter search, validation loops) against its specification.
Python floats are modelled by exact rationals; pandas NaN by `Option`.
-/

/-- One row of the primary CDC dataset: county identifier, socio-economic
index (`Socio_Index`, nullable), target value (`Deaths_per_100k`, nullable),
raw death count and population, plus the two columns `writeImputation` adds. -/
structure Row where
  countyCode : String
  socioIndex : Option Int
  deathRate : Option ℚ
  deaths : Option ℚ
  population : Option ℚ
  imputedDeaths : Option ℚ := none
  imputedFlag : ℕ := 0
deriving DecidableEq, Repr

instance : Inhabited Row := ⟨⟨"", none, none, none, none, none, 0⟩⟩

/-- Errors `impute_death_rate` can raise (ValueError / KeyError / IndexError). -/
inductive ImpErr where
  | shapeMismatch
  | keyError
  | indexOut
  | noValidNeighbors
deriving DecidableEq, Repr

deriving instance DecidableEq for Except

def getRow (ds : List Row) (i : ℕ) : Row := ds.getD i default

/-- Square-matrix check (`distance_matrix.ndim != 2 or shape[0] != shape[1]`). -/
def isSquare (D : List (List ℚ)) : Bool := D.all (fun r => r.length == D.length)

/-- Insert `a` into an already-sorted list, after every element `b` with
`le b a`; used to build a stable sort by structural recursion. -/
def insertLe (le : α → α → Bool) (a : α) : List α → List α
  | [] => [a]
  | b :: t => if le b a then b :: insertLe le a t else a :: b :: t

/-- Stable sort w.r.t. a total comparator: elements are processed left to
right and each is inserted after all earlier elements that compare `le` to
it, so equal keys keep their original relative order. -/
def sortLe (le : α → α → Bool) (l : List α) : List α :=
  l.foldl (fun acc a => insertLe le a acc) []

/-- Stable ascending argsort (`np.argsort(distances, kind="mergesort")`). -/
def argsortAsc (xs : List ℚ) : List ℕ :=
  sortLe (fun a b => decide (xs.getD a 0 ≤ xs.getD b 0)) (List.range xs.length)

/-- Row indices of `cdc_data` whose `Socio_Index` equals the given master
index (`cdc_data.index[cdc_data['Socio_Index'] == neighbor_socio].tolist()`;
row labels are positions here). -/
def rowsWithSocio (ds : List Row) (socio : ℕ) : List ℕ :=
  (List.range ds.length).filter (fun ri => (getRow ds ri).socioIndex == some (socio : ℤ))

/-- First donor row with a non-null target among the given rows, with its
target value (the `for ri in donor_rows: ... if pd.notna(val)` scan). -/
def firstWithRate (ds : List Row) : List ℕ → Option (ℕ × ℚ)
  | [] => none
  | ri :: rest =>
    match (getRow ds ri).deathRate with
    | some v => some (ri, v)
    | none => firstWithRate ds rest

/-- Donor chosen for one candidate socio index: its rows, restricted to
`allowed_indices` when provided, then the first row with a non-null target.
`none` models the loop's `continue` cases (no rows / all filtered / all NaN). -/
def chooseDonor (ds : List Row) (allowed : Option (List ℕ)) (socio : ℕ) : Option (ℕ × ℚ) :=
  let dr := rowsWithSocio ds socio
  if dr.isEmpty then none
  else
    match allowed with
    | none => firstWithRate ds dr
    | some al =>
      let dr2 := dr.filter (fun ri => al.contains ri)
      if dr2.isEmpty then none else firstWithRate ds dr2

/-- The donor-collection loop over the sorted candidate list: skip seen socio
indices, stop at `k` accepted donors, record `(neighbor_socio, death_rate)`. -/
def selectLoop (ds : List Row) (allowed : Option (List ℕ)) (k : ℕ) :
    List ℕ → List ℕ → List (ℕ × ℚ) → List (ℕ × ℚ)
  | [], _, acc => acc
  | c :: rest, seen, acc =>
    if seen.contains c then selectLoop ds allowed k rest seen acc
    else if k ≤ acc.length then acc
    else
      match chooseDonor ds allowed c with
      | none => selectLoop ds allowed k rest seen acc
      | some (_, rate) => selectLoop ds allowed k rest (c :: seen) (acc ++ [(c, rate)])

/-- Candidate socio indices: the target's distance-matrix row, argsorted
ascending (stable), with the target's own index excluded. -/
def candidateSocios (D : List (List ℚ)) (s : ℕ) : List ℕ :=
  (argsortAsc (D.getD s [])).filter (fun t => t ≠ s)

/-- Donors accepted for target row `idx` whose resolved socio index is `s`:
the candidate walk with `allowed_indices` already stripped of the target row. -/
def acceptedDonors (idx : ℕ) (ds : List Row) (D : List (List ℚ)) (k : ℕ)
    (allowed : Option (List ℕ)) (s : ℕ) : List (ℕ × ℚ) :=
  selectLoop ds (allowed.map (fun al => al.filter (fun i => i ≠ idx))) k
    (candidateSocios D s) [] []

/-- Accepted donors paired with their distances read back from the target's
matrix row (`neighbor_distances = distances[neighbor_socio_indices]`),
as `(distance, death_rate)` pairs. -/
def donorDists (idx : ℕ) (ds : List Row) (D : List (List ℚ)) (k : ℕ)
    (allowed : Option (List ℕ)) (s : ℕ) : List (ℚ × ℚ) :=
  (acceptedDonors idx ds D k allowed s).map (fun p => ((D.getD s []).getD p.1 0, p.2))

/-- The epsilon of the inverse-distance weights (`eps = 1e-8`). -/
def eps : ℚ := 1 / 100000000

/-- Weighting step over `(distance, rate)` pairs: if any distance is `<= 0.0`
(the code's `zero_mask`), the plain mean of exactly those donors; otherwise
the `1/(d+eps)`-weighted average (`np.sum(weights*rates)/np.sum(weights)`). -/
def weightEstimate (pairs : List (ℚ × ℚ)) : ℚ :=
  let zs := pairs.filter (fun p => decide (p.1 ≤ 0))
  if zs.isEmpty then
    let weights := pairs.map (fun p => 1 / (p.1 + eps))
    (List.zipWith (fun w r => w * r) weights (pairs.map (fun p => p.2))).sum / weights.sum
  else (zs.map (fun p => p.2)).sum / (zs.length : ℚ)

/-- County identifier reported for a socio index: the `County Code` of the
first dataset row with that `Socio_Index`, else the empty string. -/
def firstCodeWithSocio (ds : List Row) (socio : ℕ) : String :=
  match ds.filter (fun r => r.socioIndex == some (socio : ℤ)) with
  | [] => ""
  | r :: _ => r.countyCode

/-- Shallow embedding of `impute_death_rate(index, cdc_data, distance_matrix,
k, allowed_indices)`: square check, socio-index resolution (null gives the
silent `(np.nan, {})` outcome, out-of-bounds raises `IndexError`), stable-sorted
donor search, `NoValidNeighbors` on an empty donor list, the tie/weighted
estimate, and the one-entry provenance map of county identifiers. -/
def impute_death_rate (idx : ℕ) (ds : List Row) (D : List (List ℚ)) (k : ℕ)
    (allowed : Option (List ℕ)) : Except ImpErr (Option ℚ × List (String × List String)) :=
  if ¬ isSquare D then .error .shapeMismatch
  else if ds.length ≤ idx then .error .keyError
  else
    match (getRow ds idx).socioIndex with
    | none => .ok (none, [])
    | some sz =>
      if sz < 0 ∨ (D.length : ℤ) ≤ sz then .error .indexOut
      else if (acceptedDonors idx ds D k allowed sz.toNat).isEmpty then
        .error .noValidNeighbors
      else
        .ok (some (weightEstimate (donorDists idx ds D k allowed sz.toNat)),
          [(firstCodeWithSocio ds sz.toNat,
            (acceptedDonors idx ds D k allowed sz.toNat).map
              (fun p => firstCodeWithSocio ds p.1))])

/-- The spec's non-tie weighting: each donor weighted by `1/(d_i + eps)`,
estimate is the weighted average of donor target values (written from the
spec's words, to be compared with the source's `weightEstimate`). -/
def specWeightedAverage (pairs : List (ℚ × ℚ)) : ℚ :=
  (pairs.map (fun p => p.2 / (p.1 + eps))).sum / (pairs.map (fun p => 1 / (p.1 + eps))).sum

/-- Unweighted mean of the target values of a list of donors. -/
def unweightedMean (pairs : List (ℚ × ℚ)) : ℚ :=
  (pairs.map (fun p => p.2)).sum / (pairs.length : ℚ)

theorem zipWith_mul_map (l : List (ℚ × ℚ)) (f g : ℚ × ℚ → ℚ) :
    List.zipWith (fun w r => w * r) (l.map f) (l.map g) = l.map (fun p => f p * g p) := by
  induction l with
  | nil => rfl
  | cons a t ih => simp [List.zipWith, ih]

theorem weightEstimate_spec (pairs : List (ℚ × ℚ)) :
    weightEstimate pairs =
      if (pairs.filter (fun p => decide (p.1 ≤ 0))).isEmpty
      then specWeightedAverage pairs
      else unweightedMean (pairs.filter (fun p => decide (p.1 ≤ 0))) := by
  unfold weightEstimate specWeightedAverage unweightedMean
  dsimp only
  split
  · rw [zipWith_mul_map]
    congr 1
    congr 1
    apply List.map_congr_left
    intro p _
    rw [one_div_mul_eq_div]
  · rfl

/-- Target row with null target at socio 0 and two donor rows at socio 1
and 2; used as concrete input for several evaluations. -/
def exNegDs : List Row := [
  ⟨"t", some 0, none, none, none, none, 0⟩,
  ⟨"a", some 1, some 10, none, none, none, 0⟩,
  ⟨"b", some 2, some 20, none, none, none, 0⟩]

/-- Distance matrix with a negative entry, as a combined matrix built from a
z-scored Mahalanobis component can produce (`grid_search_parameters` blends
`compute_mahalanobis_distance` output, which has negative entries). -/
def exNegD : List (List ℚ) := [[0, -1/2, 1/2], [-1/2, 0, 1], [1/2, 1, 0]]

/-- Same dataset with a nonnegative matrix in which the nearest donor is at
distance exactly 0. -/
def exTieD : List (List ℚ) := [[0, 0, 1/2], [0, 0, 1], [1/2, 1, 0]]

unseal Rat.add Rat.mul Rat.inv Rat.sub in
/-- C1, claim as stated is FALSE: a successful `impute_death_rate` call with a
nonempty accepted donor list in which no donor's distance is 0, whose
estimate (10, the mean over the `<= 0.0` zero-mask donors) differs from the
claimed `1/(d+eps)`-weighted average of all accepted donors: the code's
zero-mask is `distance <= 0`, not `distance == 0`. -/
theorem c1_counterexample :
    impute_death_rate 0 exNegDs exNegD 5 none = .ok (some 10, [("t", ["a", "b"])]) ∧
    donorDists 0 exNegDs exNegD 5 none 0 ≠ [] ∧
    (donorDists 0 exNegDs exNegD 5 none 0).filter (fun p => decide (p.1 = 0)) = [] ∧
    (10 : ℚ) ≠ specWeightedAverage (donorDists 0 exNegDs exNegD 5 none 0) := by
  decide

/-- C1 amended: for every successful call the accepted donor list is nonempty
and the estimate is the unweighted mean of the donors with distance `<= 0`
when any exist, else the spec's `1/(d+eps)`-weighted average of all accepted
donors (for nonnegative matrices `<= 0` coincides with `== 0`). -/
theorem impute_weighting (idx : ℕ) (ds : List Row) (D : List (List ℚ)) (k : ℕ)
    (allowed : Option (List ℕ)) (sz : ℤ) (est : ℚ) (prov : List (String × List String))
    (hs : (getRow ds idx).socioIndex = some sz)
    (h : impute_death_rate idx ds D k allowed = .ok (some est, prov)) :
    donorDists idx ds D k allowed sz.toNat ≠ [] ∧
    est = (if ((donorDists idx ds D k allowed sz.toNat).filter
                (fun p => decide (p.1 ≤ 0))).isEmpty
           then specWeightedAverage (donorDists idx ds D k allowed sz.toNat)
           else unweightedMean ((donorDists idx ds D k allowed sz.toNat).filter
                (fun p => decide (p.1 ≤ 0)))) := by
  unfold impute_death_rate at h
  split at h
  · exact absurd h (by simp)
  split at h
  · exact absurd h (by simp)
  split at h
  next heq => exact absurd (hs ▸ heq) (by simp)
  next sz2 heq =>
  obtain rfl : sz2 = sz := Option.some.inj (heq ▸ hs)
  split at h
  · exact absurd h (by simp)
  split at h
  · exact absurd h (by simp)
  next hne =>
  injection h with h1
  injection h1 with h2 h3
  injection h2 with h4
  constructor
  · intro hnil
    apply hne
    rw [List.isEmpty_iff]
    have hm : (acceptedDonors idx ds D k allowed sz2.toNat).map
        (fun p => ((D.getD sz2.toNat []).getD p.1 0, p.2)) = [] := hnil
    exact List.map_eq_nil_iff.mp hm
  · rw [← h4, weightEstimate_spec]

unseal Rat.add Rat.mul Rat.inv Rat.sub in
/-- C1 witness: the amended weighting theorem applied to a concrete call
with a zero-distance donor (estimate 10 = the zero-distance donor's value). -/
theorem impute_weighting_witness :
    donorDists 0 exNegDs exTieD 5 none (0 : ℤ).toNat ≠ [] ∧
    (10 : ℚ) = (if ((donorDists 0 exNegDs exTieD 5 none (0 : ℤ).toNat).filter
                  (fun p => decide (p.1 ≤ 0))).isEmpty
                then specWeightedAverage (donorDists 0 exNegDs exTieD 5 none (0 : ℤ).toNat)
                else unweightedMean ((donorDists 0 exNegDs exTieD 5 none (0 : ℤ).toNat).filter
                  (fun p => decide (p.1 ≤ 0)))) :=
  impute_weighting 0 exNegDs exTieD 5 none 0 10 [("t", ["a", "b"])] (by decide) (by decide)

theorem chooseDonor_excluded (ds : List Row) (al : List ℕ) (c : ℕ)
    (h : (rowsWithSocio ds c).filter (fun ri => al.contains ri) = []) :
    chooseDonor ds (some al) c = none := by
  unfold chooseDonor
  dsimp only
  by_cases hE : (rowsWithSocio ds c).isEmpty
  · rw [if_pos hE]
  · rw [if_neg hE, h]
    rfl

theorem selectLoop_of_none (ds : List Row) (al : Option (List ℕ)) (k : ℕ) :
    ∀ cands seen acc, (∀ c ∈ cands, chooseDonor ds al c = none) →
      selectLoop ds al k cands seen acc = acc := by
  intro cands
  induction cands with
  | nil => intro seen acc _; rfl
  | cons c rest ih =>
    intro seen acc h
    unfold selectLoop
    by_cases hseen : seen.contains c
    · rw [if_pos hseen]
      exact ih seen acc (fun x hx => h x (List.mem_cons_of_mem c hx))
    · rw [if_neg hseen]
      by_cases hk : k ≤ acc.length
      · rw [if_pos hk]
      · rw [if_neg hk, h c (List.mem_cons_self c rest)]
        exact ih seen acc (fun x hx => h x (List.mem_cons_of_mem c hx))

/-- C3: once the earlier guards pass (square matrix, valid row label, non-null
in-bounds socio index), `impute_death_rate` fails with `NoValidNeighbors` iff
the donor search accepts zero donors; any nonempty donor list — also one with
fewer than `k` donors — yields a normal estimate; and when `allowed_indices`
excludes every dataset row of every candidate socio index, the error fires. -/
theorem impute_no_valid_neighbors (idx : ℕ) (ds : List Row) (D : List (List ℚ)) (k : ℕ)
    (allowed : Option (List ℕ)) (sz : ℤ)
    (hsq : isSquare D = true) (hidx : idx < ds.length)
    (hs : (getRow ds idx).socioIndex = some sz)
    (hlo : 0 ≤ sz) (hhi : sz < (D.length : ℤ)) :
    (impute_death_rate idx ds D k allowed = .error .noValidNeighbors ↔
      acceptedDonors idx ds D k allowed sz.toNat = []) ∧
    (acceptedDonors idx ds D k allowed sz.toNat ≠ [] →
      ∃ est prov, impute_death_rate idx ds D k allowed = .ok (some est, prov)) ∧
    (∀ al, allowed = some al →
      (∀ c ∈ candidateSocios D sz.toNat,
        (rowsWithSocio ds c).filter
          (fun ri => (al.filter (fun i => i ≠ idx)).contains ri) = []) →
      impute_death_rate idx ds D k allowed = .error .noValidNeighbors) := by
  have hred : impute_death_rate idx ds D k allowed =
      (if (acceptedDonors idx ds D k allowed sz.toNat).isEmpty then
        Except.error ImpErr.noValidNeighbors
      else
        Except.ok (some (weightEstimate (donorDists idx ds D k allowed sz.toNat)),
          [(firstCodeWithSocio ds sz.toNat,
            (acceptedDonors idx ds D k allowed sz.toNat).map
              (fun p => firstCodeWithSocio ds p.1))])) := by
    unfold impute_death_rate
    rw [if_neg (by simp [hsq]), if_neg (by omega), hs]
    dsimp only
    rw [if_neg (by omega)]
  have hiff : (acceptedDonors idx ds D k allowed sz.toNat).isEmpty = true ↔
      acceptedDonors idx ds D k allowed sz.toNat = [] := List.isEmpty_iff
  refine ⟨⟨fun h => ?_, fun h => ?_⟩, fun hne2 => ?_, fun al hal hexc => ?_⟩
  · rw [hred] at h
    by_cases hE : (acceptedDonors idx ds D k allowed sz.toNat).isEmpty
    · exact hiff.mp hE
    · rw [if_neg hE] at h
      exact absurd h (by simp)
  · rw [hred, if_pos (hiff.mpr h)]
  · rw [hred, if_neg (fun hE => hne2 (hiff.mp hE))]
    exact ⟨_, _, rfl⟩
  · have hacc : acceptedDonors idx ds D k allowed sz.toNat = [] := by
      subst hal
      unfold acceptedDonors
      exact selectLoop_of_none ds _ k _ [] []
        (fun c hc => chooseDonor_excluded ds _ c (hexc c hc))
    rw [hred, if_pos (hiff.mpr hacc)]

unseal Rat.add Rat.mul Rat.inv Rat.sub in
/-- C3 witness: the theorem applied at a concrete call whose `allowed_indices`
is empty, so zero donors are accepted and `NoValidNeighbors` is raised. -/
theorem impute_no_valid_neighbors_witness :
    (impute_death_rate 0 exNegDs exTieD 5 (some []) = .error .noValidNeighbors ↔
      acceptedDonors 0 exNegDs exTieD 5 (some []) (0 : ℤ).toNat = []) ∧
    (acceptedDonors 0 exNegDs exTieD 5 (some []) (0 : ℤ).toNat ≠ [] →
      ∃ est prov, impute_death_rate 0 exNegDs exTieD 5 (some []) = .ok (some est, prov)) ∧
    (∀ al, (some [] : Option (List ℕ)) = some al →
      (∀ c ∈ candidateSocios exTieD (0 : ℤ).toNat,
        (rowsWithSocio exNegDs c).filter
          (fun ri => (al.filter (fun i => i ≠ 0)).contains ri) = []) →
      impute_death_rate 0 exNegDs exTieD 5 (some []) = .error .noValidNeighbors) :=
  impute_no_valid_neighbors 0 exNegDs exTieD 5 (some []) 0
    (by decide) (by decide) (by decide) (by decide) (by decide)

/-- C10: with the structural checks passing, a non-null socio index that is
negative or at least the matrix dimension raises `IndexError` before any donor
search, while a null socio index returns the silent `(np.nan, {})` outcome. -/
theorem impute_index_error (idx : ℕ) (ds : List Row) (D : List (List ℚ)) (k : ℕ)
    (allowed : Option (List ℕ))
    (hsq : isSquare D = true) (hidx : idx < ds.length) :
    (∀ sz : ℤ, (getRow ds idx).socioIndex = some sz →
      (sz < 0 ∨ (D.length : ℤ) ≤ sz) →
      impute_death_rate idx ds D k allowed = .error .indexOut) ∧
    ((getRow ds idx).socioIndex = none →
      impute_death_rate idx ds D k allowed = .ok (none, [])) := by
  constructor
  · intro sz hszv hout
    unfold impute_death_rate
    rw [if_neg (by simp [hsq]), if_neg (by omega), hszv]
    dsimp only
    rw [if_pos hout]
  · intro hn
    unfold impute_death_rate
    rw [if_neg (by simp [hsq]), if_neg (by omega), hn]

/-- Single-row dataset whose socio index is negative. -/
def exOobDs : List Row := [⟨"x", some (-1), none, none, none, none, 0⟩]

/-- C10 witness: the theorem applied to a concrete row whose socio index -1 is
out of bounds for the 1x1 matrix, raising `IndexError`. -/
theorem impute_index_error_witness :
    (∀ sz : ℤ, (getRow exOobDs 0).socioIndex = some sz →
      (sz < 0 ∨ (([[0]] : List (List ℚ)).length : ℤ) ≤ sz) →
      impute_death_rate 0 exOobDs [[0]] 5 none = .error .indexOut) ∧
    ((getRow exOobDs 0).socioIndex = none →
      impute_death_rate 0 exOobDs [[0]] 5 none = .ok (none, [])) :=
  impute_index_error 0 exOobDs [[0]] 5 none (by decide) (by decide)

/-- In-place write of row `i`'s target field
(`final_cdc_data.at[idx, 'Deaths_per_100k'] = imputed_value`). -/
def setRate (ds : List Row) (i : ℕ) (v : Option ℚ) : List Row :=
  ds.set i { getRow ds i with deathRate := v }

/-- The masking write `final_cdc_data.loc[test_indices, target] = np.nan`. -/
def maskTargets (ds : List Row) (testIdx : List ℕ) : List Row :=
  testIdx.foldl (fun d i => setRate d i none) ds

/-- The imputation loop of `validate_imputation_testset`: each test row is
imputed against the *current* frame, its provenance merged, and the imputed
value written back into the frame before the next row is processed; an
exception from `impute_death_rate` propagates (there is no try/except). -/
def testLoop (D : List (List ℚ)) (k : ℕ) (allowed : Option (List ℕ)) :
    List ℕ → List Row → List (Option ℚ) → List (String × List String) →
    Except ImpErr (List (Option ℚ) × List (String × List String) × List Row)
  | [], ds, vals, prov => .ok (vals, prov, ds)
  | i :: rest, ds, vals, prov =>
    match impute_death_rate i ds D k allowed with
    | .error e => .error e
    | .ok (v, pm) => testLoop D k allowed rest (setRate ds i v) (vals ++ [v]) (prov ++ pm)

/-- Shallow embedding of `validate_imputation_testset(test_indices,
final_cdc_data, distance_matrix, target, k, allowed_indices)`: mask the test
rows' targets, impute them sequentially with write-back, and return the
imputed values, the merged provenance map, and the final state of the
caller's frame (the function copies nothing; metric aggregation over the
returned values is omitted as no claim depends on it). -/
def validate_imputation_testset (testIdx : List ℕ) (ds : List Row) (D : List (List ℚ))
    (k : ℕ) (allowed : Option (List ℕ)) :
    Except ImpErr (List (Option ℚ) × List (String × List String) × List Row) :=
  testLoop D k allowed testIdx (maskTargets ds testIdx) [] []

/-- The held-out evaluation call as `gKNNImputer.run` makes it
(`validate_imputation_testset(test_data.index.tolist(), final_cdc_data,
D_combined, target, k=best_k)`): no `allowed_indices` is passed. -/
def heldOutEvaluation (testIdx : List ℕ) (ds : List Row) (D : List (List ℚ)) (k : ℕ) :
    Except ImpErr (List (Option ℚ) × List (String × List String) × List Row) :=
  validate_imputation_testset testIdx ds D k none

/-- Three counties with distinct socio indices and county codes; rows 0 and 1
form the test partition in the held-out counterexample. -/
def exHoldDs : List Row := [
  ⟨"c0", some 0, some 10, none, none, none, 0⟩,
  ⟨"c1", some 1, some 20, none, none, none, 0⟩,
  ⟨"c2", some 2, some 30, none, none, none, 0⟩]

/-- Distance matrix for which row 2 is nearest to row 0 and row 0 is nearest
to row 1. -/
def exHoldD : List (List ℚ) := [[0, 9/10, 1/10], [9/10, 0, 1], [1/10, 1, 0]]

unseal Rat.add Rat.mul Rat.inv Rat.sub in
/-- C2, claim as stated is FALSE: the held-out evaluation call passes no
`allowed_indices` (`gknn.py` line 222), and imputed values are written back
into the shared frame, so test row 1's provenance lists "c0" — the county
code of test row 0 (whose freshly imputed value 30 is reused as donor value). -/
theorem c2_counterexample :
    (heldOutEvaluation [0, 1] exHoldDs exHoldD 1).map (fun r => r.2.1) =
      .ok [("c0", ["c2"]), ("c1", ["c0"])] ∧
    (heldOutEvaluation [0, 1] exHoldDs exHoldD 1).map (fun r => r.1) =
      .ok [some 30, some 30] ∧
    (getRow exHoldDs 0).countyCode = "c0" ∧
    ([0, 1] : List ℕ).contains 0 = true := by
  decide

theorem firstWithRate_mem (ds : List Row) :
    ∀ l ri v, firstWithRate ds l = some (ri, v) →
      ri ∈ l ∧ (getRow ds ri).deathRate = some v := by
  intro l
  induction l with
  | nil => intro ri v h; exact absurd h (by simp [firstWithRate])
  | cons a t ih =>
    intro ri v h
    unfold firstWithRate at h
    cases hr : (getRow ds a).deathRate with
    | some w =>
      rw [hr] at h
      injection h with h1
      injection h1 with h2 h3
      subst h2; subst h3
      exact ⟨List.mem_cons_self a t, hr⟩
    | none =>
      rw [hr] at h
      obtain ⟨hm, hv⟩ := ih ri v h
      exact ⟨List.mem_cons_of_mem a hm, hv⟩

theorem chooseDonor_some_allowed (ds : List Row) (al : List ℕ) (c ri : ℕ) (rate : ℚ)
    (h : chooseDonor ds (some al) c = some (ri, rate)) :
    ri ∈ al ∧ (getRow ds ri).deathRate = some rate := by
  unfold chooseDonor at h
  dsimp only at h
  by_cases hE : (rowsWithSocio ds c).isEmpty
  · rw [if_pos hE] at h; exact absurd h (by simp)
  · rw [if_neg hE] at h
    by_cases hE2 : ((rowsWithSocio ds c).filter (fun x => al.contains x)).isEmpty
    · rw [if_pos hE2] at h; exact absurd h (by simp)
    · rw [if_neg hE2] at h
      obtain ⟨hm, hv⟩ := firstWithRate_mem ds _ ri rate h
      obtain ⟨-, hc⟩ := List.mem_filter.mp hm
      exact ⟨by simpa using hc, hv⟩

theorem selectLoop_mem (ds : List Row) (al : Option (List ℕ)) (k : ℕ) :
    ∀ cands seen acc p, p ∈ selectLoop ds al k cands seen acc →
      p ∈ acc ∨ ∃ c ∈ cands, ∃ ri, chooseDonor ds al c = some (ri, p.2) ∧ p.1 = c := by
  intro cands
  induction cands with
  | nil => intro seen acc p h; exact Or.inl h
  | cons c rest ih =>
    intro seen acc p h
    unfold selectLoop at h
    by_cases hseen : seen.contains c
    · rw [if_pos hseen] at h
      rcases ih seen acc p h with hl | ⟨c2, hc2, hr⟩
      · exact Or.inl hl
      · exact Or.inr ⟨c2, List.mem_cons_of_mem c hc2, hr⟩
    · rw [if_neg hseen] at h
      by_cases hk : k ≤ acc.length
      · rw [if_pos hk] at h; exact Or.inl h
      · rw [if_neg hk] at h
        cases hcd : chooseDonor ds al c with
        | none =>
          rw [hcd] at h
          rcases ih seen acc p h with hl | ⟨c2, hc2, hr⟩
          · exact Or.inl hl
          · exact Or.inr ⟨c2, List.mem_cons_of_mem c hc2, hr⟩
        | some pr =>
          rw [hcd] at h
          rcases ih (c :: seen) (acc ++ [(c, pr.2)]) p h with hl | ⟨c2, hc2, hr⟩
          · rcases List.mem_append.mp hl with ha | hb
            · exact Or.inl ha
            · have hp : p = (c, pr.2) := by simpa using hb
              subst hp
              exact Or.inr ⟨c, List.mem_cons_self c rest, pr.1, by rw [hcd], rfl⟩
          · exact Or.inr ⟨c2, List.mem_cons_of_mem c hc2, hr⟩

/-- C2 amended: whenever `allowed_indices` *is* passed (as
`validate_imputation_testset` supports and forwards), every accepted donor
comes from a row inside the allowed set and distinct from the target row; so
with `allowed_indices` = training rows, disjoint from the test partition, no
test-partition row is ever used as a donor. The held-out call in
`gKNNImputer.run`, however, passes no `allowed_indices` (see the
counterexample). -/
theorem heldout_allowed_donors (idx : ℕ) (ds : List Row) (D : List (List ℚ)) (k : ℕ)
    (al : List ℕ) (test : List ℕ) (s : ℕ)
    (hdisj : ∀ t ∈ test, ¬ t ∈ al) :
    ∀ p ∈ acceptedDonors idx ds D k (some al) s,
      ∃ ri, chooseDonor ds (some (al.filter (fun i => i ≠ idx))) p.1 = some (ri, p.2) ∧
        ri ∈ al ∧ ¬ ri ∈ test ∧ ri ≠ idx := by
  intro p hp
  rcases selectLoop_mem ds _ k _ [] [] p hp with hl | ⟨c, -, ri, hcd, hpc⟩
  · exact absurd hl (by simp)
  · refine ⟨ri, by rw [hpc]; exact hcd, ?_⟩
    obtain ⟨hmem, -⟩ := chooseDonor_some_allowed ds _ c ri p.2 hcd
    obtain ⟨hal, hne⟩ := List.mem_filter.mp hmem
    have hni : ri ≠ idx := by simpa using hne
    exact ⟨hal, fun ht => hdisj ri ht hal, hni⟩

unseal Rat.add Rat.mul Rat.inv Rat.sub in
/-- C2 witness: the amended theorem applied to a concrete held-out setup with
`allowed_indices = [2]` (the training row) and test partition `[0, 1]`; the
single accepted donor `(2, 30)` comes from row 2, which is allowed, outside
the test partition and distinct from the target row. -/
theorem heldout_allowed_donors_witness :
    ∃ ri, chooseDonor exHoldDs (some (([2] : List ℕ).filter (fun i => i ≠ 0))) 2 =
        some (ri, (30 : ℚ)) ∧
      ri ∈ ([2] : List ℕ) ∧ ¬ ri ∈ ([0, 1] : List ℕ) ∧ ri ≠ 0 :=
  heldout_allowed_donors 0 exHoldDs exHoldD 1 [2] [0, 1] 0 (by decide) (2, 30) (by decide)

/-- Two rows agreeing on every field except possibly the target value. -/
def sameButRate (r r2 : Row) : Prop :=
  r.countyCode = r2.countyCode ∧ r.socioIndex = r2.socioIndex ∧
  r.deaths = r2.deaths ∧ r.population = r2.population ∧
  r.imputedDeaths = r2.imputedDeaths ∧ r.imputedFlag = r2.imputedFlag

theorem sameButRate_refl (r : Row) : sameButRate r r :=
  ⟨rfl, rfl, rfl, rfl, rfl, rfl⟩

theorem sameButRate_trans {a b c : Row} (h1 : sameButRate a b) (h2 : sameButRate b c) :
    sameButRate a c := by
  obtain ⟨x1, x2, x3, x4, x5, x6⟩ := h1
  obtain ⟨y1, y2, y3, y4, y5, y6⟩ := h2
  exact ⟨x1.trans y1, x2.trans y2, x3.trans y3, x4.trans y4, x5.trans y5, x6.trans y6⟩

theorem length_setRate (ds : List Row) (i : ℕ) (v : Option ℚ) :
    (setRate ds i v).length = ds.length := by
  unfold setRate
  simp

theorem getRow_setRate_ne (ds : List Row) (i j : ℕ) (v : Option ℚ) (h : j ≠ i) :
    getRow (setRate ds i v) j = getRow ds j := by
  unfold setRate getRow
  simp only [List.getD_eq_getElem?_getD, List.getElem?_set_ne (Ne.symm h)]

theorem sameButRate_setRate (ds : List Row) (i j : ℕ) (v : Option ℚ) :
    sameButRate (getRow (setRate ds i v) j) (getRow ds j) := by
  by_cases hj : j = i
  · subst hj
    by_cases hlt : j < ds.length
    · unfold setRate getRow
      rw [List.getD_eq_getElem?_getD, List.getD_eq_getElem?_getD,
        List.getElem?_set_self (by simpa using hlt), List.getElem?_eq_getElem hlt]
      exact ⟨rfl, rfl, rfl, rfl, rfl, rfl⟩
    · unfold setRate getRow
      rw [List.getD_eq_getElem?_getD, List.getD_eq_getElem?_getD,
        List.getElem?_eq_none (by simpa using (not_lt.mp hlt)),
        List.getElem?_eq_none (not_lt.mp hlt)]
      exact sameButRate_refl _
  · rw [getRow_setRate_ne ds i j v hj]
    exact sameButRate_refl _

theorem testLoop_frame (D : List (List ℚ)) (k : ℕ) (allowed : Option (List ℕ)) :
    ∀ l ds vals prov vals2 prov2 ds2,
      testLoop D k allowed l ds vals prov = .ok (vals2, prov2, ds2) →
      ds2.length = ds.length ∧
      (∀ j, ¬ j ∈ l → getRow ds2 j = getRow ds j) ∧
      (∀ j, sameButRate (getRow ds2 j) (getRow ds j)) := by
  intro l
  induction l with
  | nil =>
    intro ds vals prov vals2 prov2 ds2 h
    injection h with h1
    injection h1 with h1a h1b
    injection h1b with h2a h2b
    subst h2b
    exact ⟨rfl, fun j _ => rfl, fun j => sameButRate_refl _⟩
  | cons i rest ih =>
    intro ds vals prov vals2 prov2 ds2 h
    unfold testLoop at h
    cases hi : impute_death_rate i ds D k allowed with
    | error e => rw [hi] at h; exact absurd h (by simp)
    | ok vp =>
      rw [hi] at h
      obtain ⟨hlen, hout, hsame⟩ :=
        ih (setRate ds i vp.1) (vals ++ [vp.1]) (prov ++ vp.2) vals2 prov2 ds2 h
      refine ⟨hlen.trans (length_setRate ds i vp.1), fun j hj => ?_, fun j => ?_⟩
      · have hjr : ¬ j ∈ rest := fun hr => hj (List.mem_cons_of_mem i hr)
        have hji : j ≠ i := fun he => hj (he ▸ List.mem_cons_self i rest)
        rw [hout j hjr, getRow_setRate_ne ds i j vp.1 hji]
      · exact sameButRate_trans (hsame j) (sameButRate_setRate ds i j vp.1)

theorem maskTargets_frame (testIdx : List ℕ) :
    ∀ ds, (maskTargets ds testIdx).length = ds.length ∧
      (∀ j, ¬ j ∈ testIdx → getRow (maskTargets ds testIdx) j = getRow ds j) ∧
      (∀ j, sameButRate (getRow (maskTargets ds testIdx) j) (getRow ds j)) := by
  induction testIdx with
  | nil => exact fun ds => ⟨rfl, fun j _ => rfl, fun j => sameButRate_refl _⟩
  | cons i rest ih =>
    intro ds
    have hstep : maskTargets ds (i :: rest) = maskTargets (setRate ds i none) rest := rfl
    obtain ⟨hlen, hout, hsame⟩ := ih (setRate ds i none)
    rw [hstep]
    refine ⟨hlen.trans (length_setRate ds i none), fun j hj => ?_, fun j => ?_⟩
    · have hjr : ¬ j ∈ rest := fun hr => hj (List.mem_cons_of_mem i hr)
      have hji : j ≠ i := fun he => hj (he ▸ List.mem_cons_self i rest)
      rw [hout j hjr, getRow_setRate_ne ds i j none hji]
    · exact sameButRate_trans (hsame j) (sameButRate_setRate ds i j none)

/-- C9 amended: `validate_imputation_testset` mutates the dataframe its caller
passed (no working copy is taken): the frame it leaves behind has the same
length and agrees with the input on every non-test row and on every field
except the target value — all writes are target-field writes at test rows,
performed directly on the shared frame. -/
theorem testset_frame_effect (testIdx : List ℕ) (ds : List Row) (D : List (List ℚ))
    (k : ℕ) (allowed : Option (List ℕ)) (vals : List (Option ℚ))
    (prov : List (String × List String)) (ds2 : List Row)
    (h : validate_imputation_testset testIdx ds D k allowed = .ok (vals, prov, ds2)) :
    ds2.length = ds.length ∧
    (∀ j, ¬ j ∈ testIdx → getRow ds2 j = getRow ds j) ∧
    (∀ j, sameButRate (getRow ds2 j) (getRow ds j)) := by
  obtain ⟨hlen1, hout1, hsame1⟩ := testLoop_frame D k allowed testIdx
    (maskTargets ds testIdx) [] [] vals prov ds2 h
  obtain ⟨hlen2, hout2, hsame2⟩ := maskTargets_frame testIdx ds
  refine ⟨hlen1.trans hlen2, fun j hj => (hout1 j hj).trans (hout2 j hj), fun j =>
    sameButRate_trans (hsame1 j) (hsame2 j)⟩

unseal Rat.add Rat.mul Rat.inv Rat.sub in
/-- C9, claim as stated is FALSE: the held-out evaluation leaves the imputed
value in the dataframe shared with its caller — after the call, test row 0's
target holds the imputed 30 instead of its original 10. -/
theorem c9_counterexample :
    (validate_imputation_testset [0] exHoldDs exHoldD 1 none).map (fun r => r.2.2) ≠
      .ok exHoldDs ∧
    (validate_imputation_testset [0] exHoldDs exHoldD 1 none).map
        (fun r => (getRow r.2.2 0).deathRate) = .ok (some 30) ∧
    (getRow exHoldDs 0).deathRate = some 10 := by
  decide

/-- The frame `validate_imputation_testset [0] exHoldDs exHoldD 1 none`
leaves behind: row 0's target overwritten with the imputed 30. -/
def exHoldAfter : List Row := [
  ⟨"c0", some 0, some 30, none, none, none, 0⟩,
  ⟨"c1", some 1, some 20, none, none, none, 0⟩,
  ⟨"c2", some 2, some 30, none, none, none, 0⟩]

unseal Rat.add Rat.mul Rat.inv Rat.sub in
/-- C9 witness: the frame-effect theorem applied to the concrete held-out
run on `exHoldDs` with test partition `[0]`. -/
theorem testset_frame_effect_witness :
    exHoldAfter.length = exHoldDs.length ∧
    (∀ j, ¬ j ∈ ([0] : List ℕ) → getRow exHoldAfter j = getRow exHoldDs j) ∧
    (∀ j, sameButRate (getRow exHoldAfter j) (getRow exHoldDs j)) :=
  testset_frame_effect [0] exHoldDs exHoldD 1 none [some 30] [("c0", ["c2"])]
    exHoldAfter (by decide)

/-- Python's `min(a, b)` (first argument on ties). -/
def pyMin (a b : ℚ) : ℚ := if a ≤ b then a else b

/-- Python's `int()` truncation toward zero of a rational. -/
def truncInt (q : ℚ) : ℤ := if q < 0 then -((-q).floor) else q.floor

/-- Write of the two derived columns at row `i`
(`cdc_file.at[idx, 'Imputed Deaths'] = ...; cdc_file.at[idx, 'Imputed'] = 1`). -/
def setImputedCols (ds : List Row) (i : ℕ) (v : Option ℚ) : List Row :=
  ds.set i { getRow ds i with imputedDeaths := v, imputedFlag := 1 }

/-- Column initialisation before the write loop
(`'Imputed Deaths' = Deaths.copy(); 'Imputed' = 0`). -/
def initWriteCols (ds : List Row) : List Row :=
  ds.map (fun r => { r with imputedDeaths := r.deaths, imputedFlag := 0 })

/-- Rows to impute: null target and non-null socio index. -/
def missingIndices (ds : List Row) : List ℕ :=
  (List.range ds.length).filter
    (fun i => ((getRow ds i).deathRate).isNone && ((getRow ds i).socioIndex).isSome)

/-- The write loop of `writeImputation`: each missing row is imputed against
the current frame with no try/except (an exception aborts the whole batch);
a NaN estimate only increments `nan_imputtation_count`; otherwise the rate is
written back, `Imputed Deaths` is set to `int(min(9, rate*pop/100_000))` (NaN
when population is null), `Imputed` is set to 1, and the dictionary gains the
row's entry. -/
def writeLoop (D : List (List ℚ)) (k : ℕ) :
    List ℕ → List Row → ℕ → List (ℕ × Option ℤ) → List (String × List String) →
    Except ImpErr (List Row × ℕ × List (ℕ × Option ℤ) × List (String × List String))
  | [], ds, nan, dict, prov => .ok (ds, nan, dict, prov)
  | i :: rest, ds, nan, dict, prov =>
    match impute_death_rate i ds D k none with
    | .error e => .error e
    | .ok (none, pm) => writeLoop D k rest ds (nan + 1) dict (prov ++ pm)
    | .ok (some v, pm) =>
      match (getRow ds i).population with
      | some pop =>
        writeLoop D k rest
          (setImputedCols (setRate ds i (some v)) i
            (some ((truncInt (pyMin 9 (v * pop / 100000)) : ℤ) : ℚ)))
          nan (dict ++ [(i, some (truncInt (pyMin 9 (v * pop / 100000))))]) (prov ++ pm)
      | none =>
        writeLoop D k rest (setImputedCols (setRate ds i (some v)) i none)
          nan (dict ++ [(i, none)]) (prov ++ pm)

/-- Shallow embedding of `writeImputation(cdc_file, socio_columns_data,
distance_matrix, k)`: select the missing rows, initialise the two derived
columns, and run the write loop (the unused `socio_columns_data` argument and
the final column/series repackaging are omitted; the returned tuple is the
final frame, the NaN count, the imputed-values dictionary and the merged
provenance). -/
def writeImputation (ds : List Row) (D : List (List ℚ)) (k : ℕ) :
    Except ImpErr (List Row × ℕ × List (ℕ × Option ℤ) × List (String × List String)) :=
  writeLoop D k (missingIndices ds) (initWriteCols ds) 0 [] []

/-- Two rows both missing their target, each the only candidate donor for the
other, so the first `impute_death_rate` call raises `NoValidNeighbors`. -/
def exAbortDs : List Row := [
  ⟨"m0", some 0, none, none, none, none, 0⟩,
  ⟨"m1", some 1, none, none, none, none, 0⟩]

instance : DecidableEq (List (ℕ × Option ℤ) × List (String × List String)) :=
  inferInstance

instance : DecidableEq (ℕ × List (ℕ × Option ℤ) × List (String × List String)) :=
  inferInstance

instance : DecidableEq (List Row × ℕ × List (ℕ × Option ℤ) × List (String × List String)) :=
  inferInstance

unseal Rat.add Rat.mul Rat.inv Rat.sub in
/-- C4, claim as stated is FALSE: a batch with two missing rows aborts on the
first row's `NoValidNeighbors` (there is no try/except in the loop), so the
failure is not accumulated and row 1 is never processed. -/
theorem c4_counterexample :
    writeImputation exAbortDs [[0, 1], [1, 0]] 5 = .error .noValidNeighbors ∧
    missingIndices exAbortDs = [0, 1] := by
  decide

theorem writeLoop_accounting (D : List (List ℚ)) (k : ℕ) :
    ∀ l ds nan dict prov ds2 nan2 dict2 prov2,
      writeLoop D k l ds nan dict prov = .ok (ds2, nan2, dict2, prov2) →
      nan2 + dict2.length = nan + dict.length + l.length := by
  intro l
  induction l with
  | nil =>
    intro ds nan dict prov ds2 nan2 dict2 prov2 h
    injection h with h1
    injection h1 with h1a h1b
    injection h1b with h2a h2b
    injection h2b with h3a h3b
    subst h2a; subst h3a
    simp
  | cons i rest ih =>
    intro ds nan dict prov ds2 nan2 dict2 prov2 h
    unfold writeLoop at h
    cases hi : impute_death_rate i ds D k none with
    | error e => rw [hi] at h; exact absurd h (by simp)
    | ok vp =>
      obtain ⟨v0, pm⟩ := vp
      rw [hi] at h
      cases v0 with
      | none =>
        dsimp only at h
        have hrec := ih ds (nan + 1) dict (prov ++ pm) ds2 nan2 dict2 prov2 h
        simp only [List.length_cons] at hrec ⊢
        omega
      | some v =>
        dsimp only at h
        cases hp : (getRow ds i).population with
        | some pop =>
          rw [hp] at h
          dsimp only at h
          have hrec := ih _ nan (dict ++ [(i, some (truncInt (pyMin 9 (v * pop / 100000))))])
            (prov ++ pm) ds2 nan2 dict2 prov2 h
          simp only [List.length_append, List.length_cons, List.length_nil,
            List.length_cons] at hrec ⊢
          omega
        | none =>
          rw [hp] at h
          dsimp only at h
          have hrec := ih _ nan (dict ++ [(i, none)]) (prov ++ pm) ds2 nan2 dict2 prov2 h
          simp only [List.length_append, List.length_cons, List.length_nil,
            List.length_cons] at hrec ⊢
          omega

/-- C4 amended: the write pass has no per-row exception handling — a
`NoValidNeighbors` (or any other) exception from one row aborts the whole
batch (see the counterexample) — while a NaN estimate (the MissingSocioIndex
outcome, already excluded from the batch by the `Socio_Index.notna()` filter)
only increments the NaN counter; whenever the batch does complete, every
missing row is accounted for exactly once, as a NaN skip or as an entry of
the imputed-values dictionary. -/
theorem writeImputation_accounting (ds : List Row) (D : List (List ℚ)) (k : ℕ)
    (ds2 : List Row) (nan : ℕ) (dict : List (ℕ × Option ℤ))
    (prov : List (String × List String))
    (h : writeImputation ds D k = .ok (ds2, nan, dict, prov)) :
    nan + dict.length = (missingIndices ds).length := by
  have hrec := writeLoop_accounting D k (missingIndices ds) (initWriteCols ds)
    0 [] [] ds2 nan dict prov h
  simpa using hrec

/-- Dataset with one missing row (index 0) with a known population, plus two
complete donor rows; its write pass completes normally. -/
def exWriteDs : List Row := [
  ⟨"c0", some 0, none, none, some 100000, none, 0⟩,
  ⟨"c1", some 1, some 20, none, none, none, 0⟩,
  ⟨"c2", some 2, some 30, none, none, none, 0⟩]

/-- The frame left by `writeImputation exWriteDs exHoldD 1`: row 0 imputed to
30 with `Imputed Deaths` 9 (capped) and `Imputed` 1. -/
def exWriteAfter : List Row := [
  ⟨"c0", some 0, some 30, none, some 100000, some 9, 1⟩,
  ⟨"c1", some 1, some 20, none, none, none, 0⟩,
  ⟨"c2", some 2, some 30, none, none, none, 0⟩]

unseal Rat.add Rat.mul Rat.inv Rat.sub in
/-- C4 witness: the accounting theorem applied to a concrete completed batch
(one missing row, zero NaN skips, one dictionary entry). -/
theorem writeImputation_accounting_witness :
    0 + ([(0, some 9)] : List (ℕ × Option ℤ)).length = (missingIndices exWriteDs).length :=
  writeImputation_accounting exWriteDs exHoldD 1 exWriteAfter 0 [(0, some 9)]
    [("c0", ["c2"])] (by decide)

/-- The value `bayesian_search` returns as `best_params`: the Python *set*
literal `{best_alpha, best_beta, best_k}` with `best_beta = 1 - best_alpha`.
A Python set collapses numerically equal elements and iterates in hash order;
the model records the distinct elements (insertion order; the real iteration
order is hash-based and unmodelled, so no component order is available). -/
def bayesian_search_params (bestAlpha bestK : ℚ) : List ℚ :=
  ([bestAlpha, 1 - bestAlpha, bestK] : List ℚ).dedup

unseal Rat.add Rat.mul Rat.inv Rat.sub in
/-- C5: with best alpha 0.5 the returned set `{0.5, 0.5, 5}` has only two
elements, so the caller's `best_alpha, best_beta, best_k = best_params`
three-name unpacking cannot bind (alpha, beta, k) — it raises `ValueError`. -/
theorem c5_bayesian_set_collapse :
    (bayesian_search_params (1/2) 5).length = 2 ∧
    (bayesian_search_params (1/2) 5).length ≠ 3 := by
  decide

/-- Stand-in model of the global `random` module state consumed by
`random.sample`: a deterministic next-state function (a linear congruential
generator; the claim concerns seeding discipline, not the exact Mersenne
Twister stream, which this replaces). -/
def rngNext (s : ℕ) : ℕ := (s * 1103515245 + 12345) % 2147483648

/-- Without-replacement sampling: each pick advances the global state once
and removes the picked element from the pool. -/
def sampleAux : ℕ → ℕ → List ℕ → List ℕ × ℕ
  | 0, s, _ => ([], s)
  | n + 1, s, pool =>
    if pool.isEmpty then ([], s)
    else
      ((pool.getD (rngNext s % pool.length) 0) ::
        (sampleAux n (rngNext s) (pool.take (rngNext s % pool.length) ++
          pool.drop (rngNext s % pool.length + 1))).1,
       (sampleAux n (rngNext s) (pool.take (rngNext s % pool.length) ++
          pool.drop (rngNext s % pool.length + 1))).2)

/-- `random.sample(population, n)` as a function of the (hidden) global RNG
state: the sample plus the advanced state. -/
def randomSample (s : ℕ) (pool : List ℕ) (n : ℕ) : List ℕ × ℕ := sampleAux n s pool

/-- Rows with a known target
(`cdc_data[~cdc_data[target].isna()].index.tolist()`). -/
def knownIndices (ds : List Row) : List ℕ :=
  (List.range ds.length).filter (fun i => ((getRow ds i).deathRate).isSome)

/-- One `objective` trial's evaluation-set draw:
`random.sample(known_indices, min(num_samples, len(known_indices)))`, reading
and advancing the shared global RNG state (no seed is ever set). -/
def objectiveEvalSet (s : ℕ) (ds : List Row) (numSamples : ℕ) : List ℕ × ℕ :=
  randomSample s (knownIndices ds) (min numSamples (knownIndices ds).length)

/-- Evaluation set drawn by trial `i` of a search run whose global RNG state
starts at `s`: each trial's draw consumes the state the previous trial left. -/
def trialEvalSet (ds : List Row) (numSamples : ℕ) : ℕ → ℕ → List ℕ
  | s, 0 => (objectiveEvalSet s ds numSamples).1
  | s, i + 1 => trialEvalSet ds numSamples (objectiveEvalSet s ds numSamples).2 i

/-- Global RNG state at the start of trial `i`: the initial state advanced by
the draws of the `i` earlier trials. -/
def stateBeforeTrial (ds : List Row) (numSamples : ℕ) (s : ℕ) : ℕ → ℕ
  | 0 => s
  | i + 1 => (objectiveEvalSet (stateBeforeTrial ds numSamples s i) ds numSamples).2

theorem stateBeforeTrial_shift (ds : List Row) (numSamples : ℕ) :
    ∀ i s, stateBeforeTrial ds numSamples ((objectiveEvalSet s ds numSamples).2) i =
      stateBeforeTrial ds numSamples s (i + 1) := by
  intro i
  induction i with
  | zero => intro s; rfl
  | succ j ih =>
    intro s
    show (objectiveEvalSet (stateBeforeTrial ds numSamples
      ((objectiveEvalSet s ds numSamples).2) j) ds numSamples).2 = _
    rw [ih s]
    rfl

/-- Six donor rows with known targets, a concrete pool for the sampling
counterexample. -/
def exPoolDs : List Row := [
  ⟨"p0", some 0, some 1, none, none, none, 0⟩,
  ⟨"p1", some 1, some 2, none, none, none, 0⟩,
  ⟨"p2", some 2, some 3, none, none, none, 0⟩,
  ⟨"p3", some 3, some 4, none, none, none, 0⟩,
  ⟨"p4", some 4, some 5, none, none, none, 0⟩,
  ⟨"p5", some 5, some 6, none, none, none, 0⟩]

/-- C6, claim as stated is FALSE: with the unseeded shared RNG, trials 0 and 1
of the same run draw different evaluation row sets ([3, 1] vs [5, 4]), and two
runs whose global RNG states differ draw different sets already at trial 0. -/
theorem c6_counterexample :
    trialEvalSet exPoolDs 2 0 0 = [3, 1] ∧
    trialEvalSet exPoolDs 2 0 1 = [5, 4] ∧
    trialEvalSet exPoolDs 2 0 0 ≠ trialEvalSet exPoolDs 2 0 1 ∧
    trialEvalSet exPoolDs 2 12345 0 = [4, 0] ∧
    trialEvalSet exPoolDs 2 0 0 ≠ trialEvalSet exPoolDs 2 12345 0 := by
  decide

/-- C6 amended: the evaluation set of trial `i` is a pure function of the
dataset, the sample size, the *initial global RNG state* and `i` — it equals
a single draw made from the state the `i` earlier draws produce. Hence two
runs beginning from the same global state evaluate identical row sets
trial-for-trial, but nothing ties the set to the trial alone: no seed is
fixed, so across trials (and across runs with different inherited states)
the sets differ (see the counterexample). -/
theorem trialEvalSet_state (ds : List Row) (numSamples : ℕ) :
    ∀ i s, trialEvalSet ds numSamples s i =
      (objectiveEvalSet (stateBeforeTrial ds numSamples s i) ds numSamples).1 := by
  intro i
  induction i with
  | zero => intro s; rfl
  | succ j ih =>
    intro s
    show trialEvalSet ds numSamples ((objectiveEvalSet s ds numSamples).2) j = _
    rw [ih ((objectiveEvalSet s ds numSamples).2), stateBeforeTrial_shift]

theorem mem_insertLe {α : Type} (le : α → α → Bool) (a x : α) :
    ∀ l, x ∈ insertLe le a l ↔ x = a ∨ x ∈ l := by
  intro l
  induction l with
  | nil => simp [insertLe]
  | cons b t ih =>
    unfold insertLe
    by_cases hb : le b a
    · rw [if_pos hb]
      simp only [List.mem_cons, ih]
      tauto
    · rw [if_neg hb]
      simp only [List.mem_cons]

theorem mem_foldl_insertLe {α : Type} (le : α → α → Bool) (x : α) :
    ∀ (l acc : List α),
      x ∈ l.foldl (fun acc a => insertLe le a acc) acc ↔ x ∈ acc ∨ x ∈ l := by
  intro l
  induction l with
  | nil => intro acc; simp
  | cons a t ih =>
    intro acc
    show x ∈ t.foldl (fun acc a => insertLe le a acc) (insertLe le a acc) ↔ _
    rw [ih, mem_insertLe]
    simp only [List.mem_cons]
    tauto

theorem mem_sortLe {α : Type} (le : α → α → Bool) (x : α) :
    ∀ l, x ∈ sortLe le l ↔ x ∈ l := by
  intro l
  unfold sortLe
  rw [mem_foldl_insertLe]
  simp

/-- Lexicographic string order by code point (Python's `str` comparison,
the order pandas sorts object-dtype labels by). -/
def charListLe : List Char → List Char → Bool
  | [], _ => true
  | _ :: _, [] => false
  | a :: as, b :: bs =>
    if a.toNat < b.toNat then true
    else if b.toNat < a.toNat then false
    else charListLe as bs

def strLe (a b : String) : Bool := charListLe a.data b.data

/-- Pandas `Index.union` under its default `sort=None`: the result is sorted
(ascending by label) except when the two indexes are equal or one of them has
length 0, in which case the existing order is kept. -/
def indexUnion (xs ys : List String) : List String :=
  if xs = ys then xs
  else if xs.isEmpty then ys
  else if ys.isEmpty then xs
  else sortLe strLe (xs ++ ys.filter (fun y => ¬ xs.contains y))

/-- Stable descending sort of the importance table by combined score
(`sorted_df = socio_imp_features.sort_values(by='Combined', ascending=False)`). -/
def sortByScoreDesc (fs : List (String × ℚ)) : List (String × ℚ) :=
  sortLe (fun a b => decide (b.2 ≤ a.2)) fs

/-- Labels of the knee-prefix rows (`knee_df = sorted_df.head(knee)` when the
external `KneeLocator` finds a knee, the empty frame otherwise; `if knee:` is
also false for a zero knee). The detector itself is a third-party library, so
its output is the `knee` parameter. -/
def kneeRows (knee : Option ℕ) (features : List (String × ℚ)) : List (String × ℚ) :=
  match knee with
  | some n => if n = 0 then [] else (sortByScoreDesc features).take n
  | none => []

def kneeNames (knee : Option ℕ) (features : List (String × ℚ)) : List String :=
  (kneeRows knee features).map (fun p => p.1)

/-- Labels of the threshold rows
(`thresh_df = sorted_df[sorted_df['Combined'] >= min_combined]`). -/
def threshNames (features : List (String × ℚ)) (minCombined : ℚ) : List String :=
  ((sortByScoreDesc features).filter (fun p => decide (minCombined ≤ p.2))).map
    (fun p => p.1)

/-- Shallow embedding of `gKNNImputer.impFeatureKnee`: the returned feature
list is the labels of `knee_df.index.union(thresh_df.index)` in the union's
order (`selected = sorted_df.loc[union_idx]` reorders rows to `union_idx`,
and the final `signed_imp` multiplication keeps those labels). -/
def impFeatureKnee (knee : Option ℕ) (features : List (String × ℚ))
    (minCombined : ℚ) : List String :=
  indexUnion (kneeNames knee features) (threshNames features minCombined)

unseal Rat.add Rat.mul Rat.inv Rat.sub in
/-- C7, claim as stated is FALSE: with a knee at 1 and both features above the
0.3 threshold, the returned list is ["A", "B"] — pandas sorted the union by
label — while descending-combined-score order is ["B", "A"]. -/
theorem c7_counterexample :
    impFeatureKnee (some 1) [("B", 9/10), ("A", 1/2)] (3/10) = ["A", "B"] ∧
    (sortByScoreDesc [("B", 9/10), ("A", 1/2)]).map (fun p => p.1) = ["B", "A"] ∧
    (["A", "B"] : List String) ≠ ["B", "A"] := by
  decide

/-- C7 amended: the returned list always consists of exactly the union of the
knee-prefix label set and the threshold label set, and with no detected knee
it is exactly the threshold set in descending-score order; but when a knee is
found and the two label lists are distinct and non-empty, pandas returns the
union sorted by label, so descending-score order is not preserved in general
(see the counterexample). -/
theorem impFeatureKnee_union (knee : Option ℕ) (features : List (String × ℚ))
    (minCombined : ℚ) :
    (∀ x, x ∈ impFeatureKnee knee features minCombined ↔
      x ∈ kneeNames knee features ∨ x ∈ threshNames features minCombined) ∧
    impFeatureKnee none features minCombined = threshNames features minCombined := by
  constructor
  · intro x
    unfold impFeatureKnee indexUnion
    by_cases h1 : kneeNames knee features = threshNames features minCombined
    · rw [if_pos h1, h1]
      tauto
    · rw [if_neg h1]
      by_cases h2 : (kneeNames knee features).isEmpty
      · rw [if_pos h2, List.isEmpty_iff.mp h2]
        simp
      · rw [if_neg h2]
        by_cases h3 : (threshNames features minCombined).isEmpty
        · rw [if_pos h3, List.isEmpty_iff.mp h3]
          simp
        · rw [if_neg h3, mem_sortLe]
          rw [List.mem_append, List.mem_filter]
          constructor
          · rintro (hk | ⟨ht, -⟩)
            · exact Or.inl hk
            · exact Or.inr ht
          · rintro (hk | ht)
            · exact Or.inl hk
            · by_cases hk2 : x ∈ kneeNames knee features
              · exact Or.inl hk2
              · exact Or.inr ⟨ht, by simpa using hk2⟩
  · unfold impFeatureKnee indexUnion kneeNames kneeRows
    by_cases h0 : ([] : List String) = threshNames features minCombined
    · rw [List.map_nil, if_pos h0]
      exact h0
    · rw [List.map_nil, if_neg h0, if_pos (by rfl)]

/-- Squared Euclidean distance between two feature rows. Distances are
represented throughout by their squares: `pdist(..., metric="euclidean")`
applies a square root, which is a strictly monotone bijection of the
nonnegative reals fixing 0 and 1, so symmetry, the zero diagonal,
membership of normalized entries in [0,1] and the presence of exact 0 / exact
1 entries hold of the real matrix iff they hold of this representation. -/
def sqDist (x y : List ℚ) : ℚ := (List.zipWith (fun a b => (a - b) ^ 2) x y).sum

/-- Every pairwise squared distance of the row set (the full matrix as a flat
list, diagonal included). -/
def allPairSq (rows : List (List ℚ)) : List ℚ :=
  rows.bind (fun r => rows.map (fun t => sqDist r t))

/-- The matrix maximum (`Dsoc.max()`), squared representation. With at least
one row the matrix minimum is the zero diagonal, so the code's
`(D - D.min()) / (D.max() - D.min())` is division by this maximum. -/
def maxPairSq (rows : List (List ℚ)) : ℚ := (allPairSq rows).foldr max 0

/-- Shallow embedding of `compute_socio_distance(df)` (squared
representation): pairwise Euclidean distances min-max scaled over the whole
matrix. When the maximum equals the minimum (all rows identical) every float
entry is the NaN of `0/0`, modelled as `none`. -/
def compute_socio_distance (rows : List (List ℚ)) (i j : Fin rows.length) : Option ℚ :=
  if maxPairSq rows = 0 then none
  else some (sqDist (rows.get i) (rows.get j) / maxPairSq rows)

/-- Shallow embedding of `compute_geo_distance(df)`: the same construction
over the `(lat, lng)` pairs. -/
def compute_geo_distance (coords : List (ℚ × ℚ)) (i j : Fin coords.length) : Option ℚ :=
  compute_socio_distance (coords.map (fun c => [c.1, c.2]))
    (Fin.cast (List.length_map coords _).symm i) (Fin.cast (List.length_map coords _).symm j)

theorem sqDist_comm (x : List ℚ) : ∀ y, sqDist x y = sqDist y x := by
  induction x with
  | nil => intro y; cases y <;> rfl
  | cons a as ih =>
    intro y
    cases y with
    | nil => rfl
    | cons b bs =>
      unfold sqDist
      simp only [List.zipWith_cons_cons, List.sum_cons]
      have hsq : (a - b) ^ 2 = (b - a) ^ 2 := by ring
      have hih : sqDist as bs = sqDist bs as := ih bs
      unfold sqDist at hih
      rw [hsq, hih]

theorem sqDist_self (x : List ℚ) : sqDist x x = 0 := by
  induction x with
  | nil => rfl
  | cons a as ih =>
    unfold sqDist
    simp only [List.zipWith_cons_cons, List.sum_cons]
    unfold sqDist at ih
    rw [ih]
    ring

theorem sqDist_nonneg (x : List ℚ) : ∀ y, 0 ≤ sqDist x y := by
  induction x with
  | nil => intro y; cases y <;> norm_num [sqDist]
  | cons a as ih =>
    intro y
    cases y with
    | nil => norm_num [sqDist]
    | cons b bs =>
      unfold sqDist
      simp only [List.zipWith_cons_cons, List.sum_cons]
      have hih := ih bs
      unfold sqDist at hih
      have := sq_nonneg (a - b)
      positivity

theorem foldr_max_nonneg (l : List ℚ) : 0 ≤ l.foldr max 0 := by
  induction l with
  | nil => exact le_refl 0
  | cons b t ih => exact le_trans ih (le_max_right b _)

theorem le_foldr_max (l : List ℚ) : ∀ a ∈ l, a ≤ l.foldr max 0 := by
  induction l with
  | nil => simp
  | cons b t ih =>
    intro a ha
    rcases List.mem_cons.mp ha with rfl | ht
    · exact le_max_left _ _
    · exact le_trans (ih a ht) (le_max_right _ _)

theorem foldr_max_mem (l : List ℚ) (h : l.foldr max 0 ≠ 0) : l.foldr max 0 ∈ l := by
  induction l with
  | nil => exact absurd rfl h
  | cons b t ih =>
    show max b (t.foldr max 0) ∈ b :: t
    rcases max_choice b (t.foldr max 0) with hm | hm
    · rw [hm]; exact List.mem_cons_self b t
    · rw [hm]
      have ht : t.foldr max 0 ≠ 0 := by
        intro h0
        apply h
        show max b (t.foldr max 0) = 0
        rw [hm] at *
        exact h0
      exact List.mem_cons_of_mem b (ih ht)

theorem sqDist_mem_allPairSq (rows : List (List ℚ)) (i j : Fin rows.length) :
    sqDist (rows.get i) (rows.get j) ∈ allPairSq rows := by
  unfold allPairSq
  rw [List.mem_bind]
  exact ⟨rows.get i, List.get_mem rows i i.isLt, List.mem_map.mpr ⟨rows.get j,
    List.get_mem rows j j.isLt, rfl⟩⟩

theorem allPairSq_exists_get (rows : List (List ℚ)) (x : ℚ) (hx : x ∈ allPairSq rows) :
    ∃ i j : Fin rows.length, sqDist (rows.get i) (rows.get j) = x := by
  unfold allPairSq at hx
  rw [List.mem_bind] at hx
  obtain ⟨r, hr, hmap⟩ := hx
  obtain ⟨t, ht, hval⟩ := List.mem_map.mp hmap
  obtain ⟨i, hi⟩ := List.mem_iff_get.mp hr
  obtain ⟨j, hj⟩ := List.mem_iff_get.mp ht
  exact ⟨i, j, by rw [hi, hj, hval]⟩

theorem minmax_matrix_props (rows : List (List ℚ))
    (h2 : 1 ≤ rows.length) (hmax : maxPairSq rows ≠ 0) :
    (∀ i j, ∃ q, compute_socio_distance rows i j = some q ∧ 0 ≤ q ∧ q ≤ 1) ∧
    (∀ i j, compute_socio_distance rows i j = compute_socio_distance rows j i) ∧
    (∀ i, compute_socio_distance rows i i = some 0) ∧
    (∃ i j, compute_socio_distance rows i j = some 0) ∧
    (∃ i j, compute_socio_distance rows i j = some 1) := by
  have hpos : 0 < maxPairSq rows :=
    lt_of_le_of_ne (foldr_max_nonneg _) (Ne.symm hmax)
  have hzero : ∀ i, compute_socio_distance rows i i = some 0 := by
    intro i
    unfold compute_socio_distance
    rw [if_neg hmax, sqDist_self, zero_div]
  have h0lt : 0 < rows.length := h2
  refine ⟨?_, ?_, hzero, ⟨⟨0, h0lt⟩, ⟨0, h0lt⟩, hzero _⟩, ?_⟩
  · intro i j
    unfold compute_socio_distance
    rw [if_neg hmax]
    refine ⟨_, rfl, div_nonneg (sqDist_nonneg _ _) (le_of_lt hpos), ?_⟩
    rw [div_le_one hpos]
    exact le_foldr_max _ _ (sqDist_mem_allPairSq rows i j)
  · intro i j
    unfold compute_socio_distance
    rw [if_neg hmax, sqDist_comm, if_neg hmax]
  · obtain ⟨i, j, hij⟩ := allPairSq_exists_get rows (maxPairSq rows)
      (foldr_max_mem _ hmax)
    refine ⟨i, j, ?_⟩
    unfold compute_socio_distance
    rw [if_neg hmax, hij, div_self hmax]

/-- C8 amended: for every feature matrix with at least two rows *of which two
differ* (the maximum pairwise distance is nonzero), `compute_socio_distance`
and `compute_geo_distance` return square symmetric zero-diagonal matrices
whose entries are all defined (finite) and in [0,1], with an entry exactly 0
and an entry exactly 1 — the exact 1 exists even when all pairwise distances
are equal, because the matrix minimum is the zero diagonal. When all rows
coincide, every entry is the NaN of `0/0` (see the counterexample). -/
theorem distance_matrix_props (rows : List (List ℚ)) (coords : List (ℚ × ℚ))
    (h2 : 2 ≤ rows.length) (hmax : maxPairSq rows ≠ 0)
    (h2g : 2 ≤ coords.length)
    (hmaxg : maxPairSq (coords.map (fun c => [c.1, c.2])) ≠ 0) :
    ((∀ i j, ∃ q, compute_socio_distance rows i j = some q ∧ 0 ≤ q ∧ q ≤ 1) ∧
     (∀ i j, compute_socio_distance rows i j = compute_socio_distance rows j i) ∧
     (∀ i, compute_socio_distance rows i i = some 0) ∧
     (∃ i j, compute_socio_distance rows i j = some 0) ∧
     (∃ i j, compute_socio_distance rows i j = some 1)) ∧
    ((∀ i j, ∃ q, compute_geo_distance coords i j = some q ∧ 0 ≤ q ∧ q ≤ 1) ∧
     (∀ i j, compute_geo_distance coords i j = compute_geo_distance coords j i) ∧
     (∀ i, compute_geo_distance coords i i = some 0) ∧
     (∃ i j, compute_geo_distance coords i j = some 0) ∧
     (∃ i j, compute_geo_distance coords i j = some 1)) := by
  have hs := minmax_matrix_props rows (by omega) hmax
  have hg := minmax_matrix_props (coords.map (fun c => [c.1, c.2]))
    (by rw [List.length_map]; omega) hmaxg
  have hzg : ∀ i, compute_geo_distance coords i i = some 0 := by
    intro i
    exact hg.2.2.1 _
  have h0c : 0 < coords.length := by omega
  refine ⟨hs, ?_, ?_, hzg, ⟨⟨0, h0c⟩, ⟨0, h0c⟩, hzg _⟩, ?_⟩
  · intro i j
    exact hg.1 _ _
  · intro i j
    exact hg.2.1 _ _
  · obtain ⟨i, j, hij⟩ := hg.2.2.2.2
    refine ⟨Fin.cast (List.length_map coords (fun c => [c.1, c.2])) i,
      Fin.cast (List.length_map coords (fun c => [c.1, c.2])) j, ?_⟩
    unfold compute_geo_distance
    have hci : Fin.cast (List.length_map coords (fun c => [c.1, c.2])).symm
        (Fin.cast (List.length_map coords (fun c => [c.1, c.2])) i) = i := Fin.ext rfl
    have hcj : Fin.cast (List.length_map coords (fun c => [c.1, c.2])).symm
        (Fin.cast (List.length_map coords (fun c => [c.1, c.2])) j) = j := Fin.ext rfl
    rw [hci, hcj]
    exact hij

unseal Rat.add Rat.mul Rat.inv Rat.sub in
/-- C8, claim as stated is FALSE: on a two-row feature matrix whose rows are
identical, the min-max scaling divides 0 by 0, so no entry is finite — every
entry is NaN (`none`), refuting finiteness, the zero diagonal, [0,1]
membership and the exact-0 entry for this input with at least two rows. -/
theorem c8_counterexample :
    2 ≤ ([[1, 2], [1, 2]] : List (List ℚ)).length ∧
    maxPairSq [[1, 2], [1, 2]] = 0 ∧
    (∀ i j : Fin ([[1, 2], [1, 2]] : List (List ℚ)).length,
      compute_socio_distance [[1, 2], [1, 2]] i j = none) := by
  decide

unseal Rat.add Rat.mul Rat.inv Rat.sub in
/-- C8 witness: the property theorem applied to concrete two-point socio and
geo inputs with distinct rows. -/
theorem distance_matrix_props_witness :
    ((∀ i j, ∃ q, compute_socio_distance [[0], [1]] i j = some q ∧ 0 ≤ q ∧ q ≤ 1) ∧
     (∀ i j, compute_socio_distance [[0], [1]] i j = compute_socio_distance [[0], [1]] j i) ∧
     (∀ i, compute_socio_distance [[0], [1]] i i = some 0) ∧
     (∃ i j, compute_socio_distance [[0], [1]] i j = some 0) ∧
     (∃ i j, compute_socio_distance [[0], [1]] i j = some 1)) ∧
    ((∀ i j, ∃ q, compute_geo_distance [(0, 0), (1, 0)] i j = some q ∧ 0 ≤ q ∧ q ≤ 1) ∧
     (∀ i j, compute_geo_distance [(0, 0), (1, 0)] i j =
        compute_geo_distance [(0, 0), (1, 0)] j i) ∧
     (∀ i, compute_geo_distance [(0, 0), (1, 0)] i i = some 0) ∧
     (∃ i j, compute_geo_distance [(0, 0), (1, 0)] i j = some 0) ∧
     (∃ i j, compute_geo_distance [(0, 0), (1, 0)] i j = some 1)) :=
  distance_matrix_props [[0], [1]] [(0, 0), (1, 0)] (by decide) (by decide)
    (by decide) (by decide)
